import Mathlib

/-!
Shallow embedding of the molecular-dynamics program (velocity-Verlet
integrator with a Lennard-Jones pair force under periodic boundary
conditions), translated from the source notebook.  Machine floating-point
arithmetic is modelled by exact real arithmetic over `ℝ`; particle arrays
of shape `(N, 3)` become functions `Fin n → Fin 3 → ℝ`.  The fixed-width
trajectory text format is modelled over `ℚ`, where it is executable.
-/

namespace MDCode

noncomputable section

/-- Model of `np.copysign(1, x)` for a real argument: `-1` for negative
`x`, `+1` otherwise (IEEE `+0.0`, which is what `a - a` produces, has a
positive sign bit, so `copysign(1, 0) = 1`). -/
def copysign (x : ℝ) : ℝ := if x < 0 then -1 else 1

/-- The per-component periodic-image correction applied inside `lj_force`:
`if (np.abs(dx[l])) < 0.5: dx[l] = dx[l] - 0.5*L*np.copysign(1, dx[l])`. -/
def minImage (L d : ℝ) : ℝ := if |d| < 0.5 then d - 0.5 * L * copysign d else d

/-- The corrected separation vector of the pair `(i, j)` inside
`lj_force`: `dx = x[i,:] - x[j,:]` followed by the per-component
correction `minImage`. -/
def pairDx (x : Fin n → Fin 3 → ℝ) (L : ℝ) (i j : Fin n) (l : Fin 3) : ℝ :=
  minImage L (x i l - x j l)

/-- `dist2 = np.dot(dx, dx)` for the corrected separation of pair `(i, j)`. -/
def pairDist2 (x : Fin n → Fin 3 → ℝ) (L : ℝ) (i j : Fin n) : ℝ :=
  ∑ l, pairDx x L i j l * pairDx x L i j l

/-- Hard-coded Lennard-Jones length scale: `sigma = 1`. -/
def sigma : ℝ := 1

/-- `sigma6 = sigma**6`. -/
def sigma6 : ℝ := sigma ^ 6

/-- `sigma7 = sigma6*sigma`. -/
def sigma7 : ℝ := sigma6 * sigma

/-- Hard-coded Lennard-Jones energy scale: `eps = 1`. -/
def eps : ℝ := 1

/-- The contribution `lj_f` computed for the pair `(i, j)` in `lj_force`:
with `dist6 = np.power(dist2, -3)`, `dist = np.sqrt(dist2)`,
`dist7 = dist6/dist` and the unit vector `dx/dist`,
`lj_f = 24*eps*sigma7*dist7*(2*sigma6*dist6 - 1)*dx`. -/
def ljPair (x : Fin n → Fin 3 → ℝ) (L : ℝ) (i j : Fin n) (l : Fin 3) : ℝ :=
  24 * eps * sigma7 * (pairDist2 x L i j ^ (-3 : ℤ) / Real.sqrt (pairDist2 x L i j)) *
      (2 * sigma6 * pairDist2 x L i j ^ (-3 : ℤ) - 1) *
    (pairDx x L i j l / Real.sqrt (pairDist2 x L i j))

/-- The set of index pairs visited by the double loop
`for i in range(N-1): for j in range(i+1, N):`. -/
def pairSet (n : ℕ) : Finset (Fin n × Fin n) :=
  Finset.univ.filter fun p => p.1 < p.2

/-- `lj_force`: starting from a zero array, every pair `(i, j)` with
`i < j` subtracts its contribution from `f[i]` and adds it to `f[j]`.
Real addition is commutative and associative, so the loop accumulation
is the sum over the pair set. -/
def lj_force (x : Fin n → Fin 3 → ℝ) (L : ℝ) : Fin n → Fin 3 → ℝ := fun k l =>
  ∑ p ∈ pairSet n,
    ((if k = p.1 then -ljPair x L p.1 p.2 l else 0) +
      (if k = p.2 then ljPair x L p.1 p.2 l else 0))

/-- `compute_forces` returns `lj_force(x, L)` (the Coulomb term is
commented out in the source). -/
def compute_forces (x : Fin n → Fin 3 → ℝ) (L : ℝ) : Fin n → Fin 3 → ℝ :=
  lj_force x L

/-- The unwrapped position update of `velocity_verlet_update_positions`:
`x += v*dt + 0.5*dt*dt*f/m`, per particle and component. -/
def unwrappedPos (x v f : Fin n → Fin 3 → ℝ) (m dt : ℝ) (i : Fin n) (l : Fin 3) : ℝ :=
  x i l + (v i l * dt + 0.5 * dt * dt * f i l / m)

/-- The wrap applied to each coordinate after the position update:
`if x[i,j] < 0: x[i,j] += L  elif x[i,j] > L: x[i,j] -= L`. -/
def wrapCoord (L y : ℝ) : ℝ := if y < 0 then y + L else if y > L then y - L else y

/-- `velocity_verlet_update_positions`: unwrapped update followed by the
periodic wrap into the central box. -/
def velocity_verlet_update_positions (x v f : Fin n → Fin 3 → ℝ) (m dt L : ℝ) :
    Fin n → Fin 3 → ℝ := fun i l =>
  wrapCoord L (unwrappedPos x v f m dt i l)

/-- `velocity_verlet_update_velocities`: `v += 0.5*dt/m*(f0+f1)`. -/
def velocity_verlet_update_velocities (v f0 f1 : Fin n → Fin 3 → ℝ) (m dt : ℝ) :
    Fin n → Fin 3 → ℝ := fun i l =>
  v i l + 0.5 * dt / m * (f0 i l + f1 i l)

/-- The state carried across iterations of the loop in `run_md`:
positions `x`, velocities `v`, and the saved force array `f` (the `f0`
of the next step). -/
structure MDState (n : ℕ) where
  x : Fin n → Fin 3 → ℝ
  v : Fin n → Fin 3 → ℝ
  f : Fin n → Fin 3 → ℝ

/-- One iteration of the loop in `run_md`: propagate positions with the
saved forces, recompute forces at the wrapped positions, propagate
velocities with the old and new forces, and save the new forces. -/
def mdStep (m dt L : ℝ) (s : MDState n) : MDState n :=
  let x1 := velocity_verlet_update_positions s.x s.v s.f m dt L
  let f1 := compute_forces x1 L
  ⟨x1, velocity_verlet_update_velocities s.v s.f f1 m dt, f1⟩

/-- The state after `k` iterations of the loop in `run_md`, starting
from positions `x0`, velocities `v0`, and the initial force evaluation
`f0 = compute_forces(x, L)`. -/
def mdRun (m dt L : ℝ) (x0 v0 : Fin n → Fin 3 → ℝ) : ℕ → MDState n
  | 0 => ⟨x0, v0, compute_forces x0 L⟩
  | k + 1 => mdStep m dt L (mdRun m dt L x0 v0 k)

/-- Modelled from the spec: the intended per-component minimum-image
correction, with threshold `boxLength/2` and a shift of one full box
length in the direction that reduces the magnitude.  Stated only to
compare the source's correction against the specified one. -/
def minImageSpec (L d : ℝ) : ℝ := if L / 2 < |d| then d - L * copysign d else d

/-- Concrete two-particle configuration whose corrected separation is
`(2, 2, 1)` with distance `3`: particles at `(2,2,1)` and the origin. -/
def cx3 : Fin 2 → Fin 3 → ℝ := ![![2, 2, 1], ![0, 0, 0]]

/-- Concrete single-particle positions for the wrap boundary case. -/
def cx4x : Fin 1 → Fin 3 → ℝ := ![![1 / 2, 0, 0]]

/-- Concrete single-particle velocities for the wrap boundary case. -/
def cx4v : Fin 1 → Fin 3 → ℝ := ![![1 / 2, 0, 0]]

/-- Concrete single-particle zero force array. -/
def cx4f : Fin 1 → Fin 3 → ℝ := ![![0, 0, 0]]

/-- Concrete single-particle positions for the wrap witness. -/
def cw4x : Fin 1 → Fin 3 → ℝ := ![![1 / 4, 0, 0]]

/-- Concrete single-particle velocities for the wrap witness. -/
def cw4v : Fin 1 → Fin 3 → ℝ := ![![1 / 4, 0, 0]]

/-- Two distinct particles whose corrected separation at `L = 3/5` is
the zero vector: `(3/10, 3/10, 3/10)` and the origin. -/
def cx7 : Fin 2 → Fin 3 → ℝ := ![![3 / 10, 3 / 10, 3 / 10], ![0, 0, 0]]

/-- Two coincident particles at `(3/10, 3/10, 3/10)`. -/
def cx7b : Fin 2 → Fin 3 → ℝ := ![![3 / 10, 3 / 10, 3 / 10], ![3 / 10, 3 / 10, 3 / 10]]

/-- The Lennard-Jones minimum distance `r0 = 2^(1/6) * sigma`. -/
def r0 : ℝ := (2 : ℝ) ^ ((1 : ℝ) / 6)

/-- Two particles separated by exactly `r0` along the first axis, equal
on the other two axes, in a box of edge `3 > 2 * r0`. -/
def cx8 : Fin 2 → Fin 3 → ℝ := ![![0, 0, 0], ![r0, 0, 0]]

/-- Two particles sharing their second coordinate (both `5`). -/
def cw10 : Fin 2 → Fin 3 → ℝ := ![![1, 5, 0], ![2, 5, 3]]

end

/-- Left-pad a string with a character to the given width
(Python `%10d` / `%10.5f` field padding). -/
def padLeft (c : Char) (w : Nat) (s : String) : String :=
  String.mk (List.replicate (w - s.length) c) ++ s

/-- Round the fraction `nu / de` (with `de > 0`) to the nearest integer,
ties to even — the rounding Python applies when converting a value to a
fixed-point decimal string.  Written with integer arithmetic so that it
evaluates by kernel reduction. -/
def roundHalfEven (nu de : ℤ) : ℤ :=
  let f := Int.fdiv nu de
  let r2 := 2 * (nu - f * de)
  if r2 < de then f else if de < r2 then f + 1 else if f % 2 = 0 then f else f + 1

/-- Python `"%10d" % k`: decimal digits right-justified in a field of
width 10. -/
def fmtD10 (k : ℕ) : String := padLeft ' ' 10 (Nat.repr k)

/-- Python `"%10.5f" % q` on an exact value: round `q * 10^5` to the
nearest integer, render five decimal places, right-justify in a field of
width 10. -/
def fmtF105 (q : ℚ) : String :=
  let n := (roundHalfEven (q.num * 100000) q.den).natAbs
  let sgn := if q.num < 0 then "-" else ""
  padLeft ' ' 10 (sgn ++ Nat.repr (n / 100000) ++ "." ++ padLeft '0' 5 (Nat.repr (n % 100000)))

/-- `write_trajectory_frame` as the list of lines it writes: `"%10d"` of
the particle count, `"%10d"` of the step index, then one
`"C   %10.5f %10.5f %10.5f"` line per particle. -/
def write_trajectory_frame (x : List (ℚ × ℚ × ℚ)) (step : ℕ) : List String :=
  fmtD10 x.length :: fmtD10 step ::
    x.map fun p => "C   " ++ fmtF105 p.1 ++ " " ++ fmtF105 p.2.1 ++ " " ++ fmtF105 p.2.2

/-! ## General lemmas about the embedded program -/

/-- Each pair's contribution enters `f[i]` negated and `f[j]` unnegated,
so summing the accumulated array over all particles cancels pairwise. -/
theorem lj_force_sum_eq_zero (x : Fin n → Fin 3 → ℝ) (L : ℝ) (l : Fin 3) :
    ∑ k, lj_force x L k l = 0 := by
  unfold lj_force
  rw [Finset.sum_comm]
  refine Finset.sum_eq_zero fun p _ => ?_
  rw [Finset.sum_add_distrib]
  simp [Finset.sum_ite_eq]

/-- The saved force array of the loop state is always the force
evaluation at the state's own positions. -/
theorem mdRun_f (m dt L : ℝ) (x0 v0 : Fin n → Fin 3 → ℝ) (k : ℕ) :
    (mdRun m dt L x0 v0 k).f = compute_forces (mdRun m dt L x0 v0 k).x L := by
  cases k <;> rfl

/-! ## Claim theorems -/

/-- C2: for every positions array and box length, the component-wise sum
over all particles of the output of `compute_forces` is exactly zero in
exact real arithmetic, because each pair's contribution is subtracted
from particle `i` and added to particle `j`. -/
theorem compute_forces_sum_zero (x : Fin n → Fin 3 → ℝ) (L : ℝ) (l : Fin 3) :
    ∑ k, compute_forces x L k l = 0 :=
  lj_force_sum_eq_zero x L l

/-- C5: every loop iteration updates each velocity component by
`0.5*dt/m` times the sum of the force at the step's starting positions
and the force at the wrapped, position-updated configuration. -/
theorem velocity_update_trapezoidal (m dt L : ℝ) (x0 v0 : Fin n → Fin 3 → ℝ)
    (k : ℕ) (i : Fin n) (l : Fin 3) :
    (mdRun m dt L x0 v0 (k + 1)).v i l
      = (mdRun m dt L x0 v0 k).v i l
        + 0.5 * dt / m * (compute_forces (mdRun m dt L x0 v0 k).x L i l
            + compute_forces (mdRun m dt L x0 v0 (k + 1)).x L i l) := by
  conv_lhs => rw [show (mdRun m dt L x0 v0 (k + 1)).v
    = velocity_verlet_update_velocities (mdRun m dt L x0 v0 k).v (mdRun m dt L x0 v0 k).f
        (compute_forces (mdRun m dt L x0 v0 (k + 1)).x L) m dt from rfl]
  rw [velocity_verlet_update_velocities, mdRun_f]

/-- C6: total momentum is preserved exactly by every integrator step, so
after any number of steps it equals the initial total momentum; the
summed force terms in the velocity update vanish by pairwise
antisymmetric accumulation. -/
theorem momentum_conserved (m dt L : ℝ) (x0 v0 : Fin n → Fin 3 → ℝ) (k : ℕ) (l : Fin 3) :
    ∑ i, m * (mdRun m dt L x0 v0 k).v i l = ∑ i, m * v0 i l := by
  induction k with
  | zero => rfl
  | succ k ih =>
    rw [← ih]
    have hstep : (mdRun m dt L x0 v0 (k + 1)).v
        = velocity_verlet_update_velocities (mdRun m dt L x0 v0 k).v (mdRun m dt L x0 v0 k).f
            (compute_forces (mdRun m dt L x0 v0 (k + 1)).x L) m dt := rfl
    rw [hstep]
    unfold velocity_verlet_update_velocities
    have hf : ∑ i, (mdRun m dt L x0 v0 k).f i l = 0 := by
      rw [mdRun_f]; exact lj_force_sum_eq_zero _ _ _
    have hf1 : ∑ i, compute_forces (mdRun m dt L x0 v0 (k + 1)).x L i l = 0 :=
      lj_force_sum_eq_zero _ _ _
    have expand : ∀ i : Fin n, m * ((mdRun m dt L x0 v0 k).v i l
          + 0.5 * dt / m * ((mdRun m dt L x0 v0 k).f i l
              + compute_forces (mdRun m dt L x0 v0 (k + 1)).x L i l))
        = m * (mdRun m dt L x0 v0 k).v i l
          + (m * (0.5 * dt / m)) * (mdRun m dt L x0 v0 k).f i l
          + (m * (0.5 * dt / m)) * compute_forces (mdRun m dt L x0 v0 (k + 1)).x L i l :=
      fun i => by ring
    rw [Finset.sum_congr rfl fun i _ => expand i]
    rw [Finset.sum_add_distrib, Finset.sum_add_distrib]
    simp only [← Finset.mul_sum]
    rw [hf, hf1]
    ring

/-- C9: `write_trajectory_frame` for two particles at `(1,2,3)` and
`(4,5,6)` at step `5` emits exactly the four fixed-width lines: the
particle count and the step as 10-character right-justified integers,
then one `C` line per particle with 10-character-wide 5-decimal
coordinates. -/
theorem write_frame_format :
    write_trajectory_frame [(1, 2, 3), (4, 5, 6)] 5
      = ["         2", "         5",
          "C      1.00000    2.00000    3.00000",
          "C      4.00000    5.00000    6.00000"] := by decide

/-- C1 (code bug): at box length `10`, the source's correction leaves
the component `6`, whose magnitude exceeds `L/2 = 5`, unchanged, and
rewrites the component `1/5`, whose magnitude does not exceed `L/2`, to
`-24/5`; the specified correction maps `6` to `-4` and leaves `1/5`
unchanged. -/
theorem min_image_code_vs_spec :
    minImage 10 6 = 6 ∧ minImageSpec 10 6 = -4
      ∧ minImage 10 (1 / 5) = -(24 / 5) ∧ minImageSpec 10 (1 / 5) = 1 / 5 := by
  rw [minImage, minImage, minImageSpec, minImageSpec, copysign, copysign,
    abs_of_nonneg (by norm_num : (0:ℝ) ≤ 6), abs_of_nonneg (by norm_num : (0:ℝ) ≤ 1 / 5)]
  norm_num

/-- C10: a raw separation component that is exactly `0` satisfies the
correction condition `|0| < 0.5`, and since `copysign(1, 0) = 1` it is
replaced by `-0.5 * L`; hence any pair sharing a coordinate on some axis
is treated as separated by half a box length on that axis. -/
theorem zero_separation_component (x : Fin n → Fin 3 → ℝ) (L : ℝ) (i j : Fin n) (l : Fin 3)
    (h : x i l = x j l) :
    copysign 0 = 1 ∧ pairDx x L i j l = -(0.5 * L) := by
  constructor
  · rw [copysign]; norm_num
  · rw [pairDx, h, sub_self, minImage, copysign]
    norm_num

/-- Witness for the zero-component correction: the pair `(1,5,0)`,
`(2,5,3)` shares its second coordinate, and its corrected second
separation component at `L = 7` is `-3.5`. -/
theorem zero_separation_component_witness :
    copysign 0 = 1 ∧ pairDx cw10 7 0 1 1 = -(0.5 * 7) :=
  zero_separation_component cw10 7 0 1 1 (by simp [cw10])

/-- C7 (code bug): at `L = 3/5` the corrected separation of the two
distinct particles `(3/10, 3/10, 3/10)` and `(0,0,0)` is the zero
vector, so `dist = 0` is reached and the division by `dist` divides by
zero; for two coincident particles the corrected separation is instead
`(-L/2, -L/2, -L/2)` with a nonzero `dist`. -/
theorem coincidence_divergence :
    cx7 0 ≠ cx7 1 ∧ pairDist2 cx7 (3 / 5) 0 1 = 0
      ∧ cx7b 0 = cx7b 1 ∧ pairDist2 cx7b (3 / 5) 0 1 ≠ 0 := by
  refine ⟨fun h => ?_, ?_, rfl, ?_⟩
  · have h0 := congrFun h 0
    simp [cx7] at h0
  · rw [pairDist2, Fin.sum_univ_three]
    have : ∀ l : Fin 3, pairDx cx7 (3 / 5) 0 1 l = minImage (3 / 5) (3 / 10) := by
      intro l
      fin_cases l <;> simp [pairDx, cx7]
    rw [this 0, this 1, this 2, minImage, copysign]
    rw [abs_of_nonneg (by norm_num : (0:ℝ) ≤ 3 / 10)]
    norm_num
  · rw [pairDist2, Fin.sum_univ_three]
    have : ∀ l : Fin 3, pairDx cx7b (3 / 5) 0 1 l = minImage (3 / 5) 0 := by
      intro l
      fin_cases l <;> simp [pairDx, cx7b]
    rw [this 0, this 1, this 2, minImage, copysign]
    norm_num

/-- C4 counterexample: with `L = m = dt = 1`, a particle at `1/2` with
velocity `1/2` and zero force satisfies the claim's hypotheses (it
starts inside `[0, L)` and its displacement does not exceed `L`), yet
its updated first coordinate is exactly `1`, which the wrap leaves
outside `[0, 1)`. -/
theorem wrap_boundary_counterexample :
    cx4x 0 0 ∈ Set.Ico (0 : ℝ) 1
      ∧ |cx4v 0 0 * 1 + 0.5 * 1 * 1 * cx4f 0 0 / 1| ≤ 1
      ∧ velocity_verlet_update_positions cx4x cx4v cx4f 1 1 1 0 0 = 1
      ∧ velocity_verlet_update_positions cx4x cx4v cx4f 1 1 1 0 0 ∉ Set.Ico (0 : ℝ) 1 := by
  have hval : velocity_verlet_update_positions cx4x cx4v cx4f 1 1 1 0 0 = 1 := by
    rw [velocity_verlet_update_positions, unwrappedPos, wrapCoord]
    simp [cx4x, cx4v, cx4f]
    norm_num
  refine ⟨?_, ?_, hval, ?_⟩
  · simp [cx4x]; norm_num
  · simp [cx4v, cx4f, abs_le]; norm_num
  · rw [hval]; simp

/-- C4 amended: under the claim's hypotheses every wrapped coordinate
lies in the closed interval `[0, L]`; it lies in `[0, L)` unless the
unwrapped coordinate is exactly `L`, in which case it is left at `L`;
and an unwrapped coordinate strictly above `L` ends at exactly
`unwrapped - L`. -/
theorem wrap_into_box (x v f : Fin n → Fin 3 → ℝ) (m dt L : ℝ) (i : Fin n) (l : Fin 3)
    (hx : x i l ∈ Set.Ico 0 L)
    (hd : |v i l * dt + 0.5 * dt * dt * f i l / m| ≤ L) :
    velocity_verlet_update_positions x v f m dt L i l ∈ Set.Icc 0 L
      ∧ (velocity_verlet_update_positions x v f m dt L i l ∈ Set.Ico 0 L
          ∨ unwrappedPos x v f m dt i l = L)
      ∧ (L < unwrappedPos x v f m dt i l →
          velocity_verlet_update_positions x v f m dt L i l
            = unwrappedPos x v f m dt i l - L) := by
  obtain ⟨hx0, hxL⟩ := hx
  rw [abs_le] at hd
  obtain ⟨hd1, hd2⟩ := hd
  have hL : 0 < L := lt_of_le_of_lt hx0 hxL
  have hu1 : -L ≤ unwrappedPos x v f m dt i l := by
    rw [unwrappedPos]; linarith
  have hu2 : unwrappedPos x v f m dt i l < 2 * L := by
    rw [unwrappedPos]; linarith
  rw [velocity_verlet_update_positions, wrapCoord]
  split_ifs with h1 h2
  · exact ⟨⟨by linarith, by linarith⟩, Or.inl ⟨by linarith, by linarith⟩,
      fun h => absurd h (by linarith)⟩
  · exact ⟨⟨by linarith, by linarith⟩, Or.inl ⟨by linarith, by linarith⟩, fun _ => rfl⟩
  · push_neg at h1 h2
    rcases lt_or_eq_of_le h2 with h3 | h3
    · exact ⟨⟨h1, by linarith⟩, Or.inl ⟨h1, h3⟩, fun h => absurd h (by linarith)⟩
    · exact ⟨⟨h1, by linarith⟩, Or.inr h3, fun h => absurd h (by linarith)⟩

/-- Witness for the amended wrap property: a particle at `1/4` with
velocity `1/4`, zero force, `L = m = dt = 1` satisfies both hypotheses
and the three wrap conclusions. -/
theorem wrap_into_box_witness :
    cw4x 0 0 ∈ Set.Ico (0 : ℝ) 1
      ∧ |cw4v 0 0 * 1 + 0.5 * 1 * 1 * cx4f 0 0 / 1| ≤ 1
      ∧ (velocity_verlet_update_positions cw4x cw4v cx4f 1 1 1 0 0 ∈ Set.Icc 0 1
          ∧ (velocity_verlet_update_positions cw4x cw4v cx4f 1 1 1 0 0 ∈ Set.Ico 0 1
              ∨ unwrappedPos cw4x cw4v cx4f 1 1 0 0 = 1)
          ∧ (1 < unwrappedPos cw4x cw4v cx4f 1 1 0 0 →
              velocity_verlet_update_positions cw4x cw4v cx4f 1 1 1 0 0
                = unwrappedPos cw4x cw4v cx4f 1 1 0 0 - 1)) :=
  ⟨by simp [cw4x]; norm_num, by simp [cw4v, cx4f, abs_le]; norm_num,
    wrap_into_box cw4x cw4v cx4f 1 1 1 0 0 (by simp [cw4x]; norm_num)
      (by simp [cw4v, cx4f, abs_le]; norm_num)⟩

theorem zpow_negThree (a : ℝ) : a ^ (-3 : ℤ) = (a ^ 3)⁻¹ := by
  rw [zpow_neg, show ((3:ℤ)) = ((3:ℕ):ℤ) from rfl, zpow_natCast]

theorem ljPair_formula (x : Fin n → Fin 3 → ℝ) (L : ℝ) (i j : Fin n) (l : Fin 3)
    (h : 0 < pairDist2 x L i j) :
    ljPair x L i j l
      = 24 * eps * sigma ^ 6 / Real.sqrt (pairDist2 x L i j) ^ 7
          * (2 * sigma ^ 6 / Real.sqrt (pairDist2 x L i j) ^ 6 - 1)
          * (pairDx x L i j l / Real.sqrt (pairDist2 x L i j))
      ∧ ∑ l2, ljPair x L i j l2 ^ 2
        = (24 * eps * sigma ^ 6 / Real.sqrt (pairDist2 x L i j) ^ 7
            * (2 * sigma ^ 6 / Real.sqrt (pairDist2 x L i j) ^ 6 - 1)) ^ 2 := by
  set r := Real.sqrt (pairDist2 x L i j) with hrdef
  have hr : 0 < r := Real.sqrt_pos.mpr h
  have hr2 : r ^ 2 = pairDist2 x L i j := Real.sq_sqrt h.le
  have hvec : ∀ l2 : Fin 3, ljPair x L i j l2
      = 24 * eps * sigma ^ 6 / r ^ 7 * (2 * sigma ^ 6 / r ^ 6 - 1)
          * (pairDx x L i j l2 / r) := by
    intro l2
    rw [ljPair, ← hrdef, show pairDist2 x L i j = r ^ 2 from hr2.symm, zpow_negThree]
    simp only [eps, sigma7, sigma6, sigma, one_pow, one_mul, mul_one]
    field_simp
    ring
  refine ⟨hvec l, ?_⟩
  have expand : ∀ l2 : Fin 3,
      (24 * eps * sigma ^ 6 / r ^ 7 * (2 * sigma ^ 6 / r ^ 6 - 1)
          * (pairDx x L i j l2 / r)) ^ 2
        = (24 * eps * sigma ^ 6 / r ^ 7 * (2 * sigma ^ 6 / r ^ 6 - 1)) ^ 2 / r ^ 2
            * (pairDx x L i j l2 * pairDx x L i j l2) := fun l2 => by ring
  rw [Finset.sum_congr rfl fun l2 _ => by rw [hvec l2, expand l2], ← Finset.mul_sum,
    show ∑ l2, pairDx x L i j l2 * pairDx x L i j l2 = pairDist2 x L i j from rfl,
    show pairDist2 x L i j = r ^ 2 from hr2.symm]
  field_simp
  ring

theorem minImage_far (L d : ℝ) (hd : ¬ |d| < 0.5) : minImage L d = d := if_neg hd

theorem minImage_near (L d : ℝ) (hd : |d| < 0.5) :
    minImage L d = d - 0.5 * L * copysign d := if_pos hd

theorem cx3_dx0 : pairDx cx3 10 0 1 0 = 2 := by
  rw [pairDx]
  simp [cx3]
  rw [minImage_far]
  rw [abs_lt]
  rintro ⟨-, h⟩
  norm_num at h

theorem cx3_dx1 : pairDx cx3 10 0 1 1 = 2 := by
  rw [pairDx]
  simp [cx3]
  rw [minImage_far]
  rw [abs_lt]
  rintro ⟨-, h⟩
  norm_num at h

theorem cx3_dx2 : pairDx cx3 10 0 1 2 = 1 := by
  rw [pairDx]
  simp [cx3]
  rw [minImage_far]
  rw [abs_lt]
  rintro ⟨-, h⟩
  norm_num at h

theorem cx3_dist2 : pairDist2 cx3 10 0 1 = 9 := by
  rw [pairDist2, Fin.sum_univ_three, cx3_dx0, cx3_dx1, cx3_dx2]
  norm_num

theorem sqrt_nine : Real.sqrt (9:ℝ) = 3 := by
  rw [show (9:ℝ) = 3^2 by norm_num, Real.sqrt_sq (by norm_num : (0:ℝ) ≤ 3)]

theorem cx3_sqrt : Real.sqrt (pairDist2 cx3 10 0 1) = 3 := by
  rw [cx3_dist2, sqrt_nine]

theorem ljPair_magnitude_counterexample :
    ∑ l, ljPair cx3 10 0 1 l ^ 2
      ≠ (24 * eps * sigma ^ 6 / Real.sqrt (pairDist2 cx3 10 0 1) ^ 6
          * (2 * sigma ^ 6 / Real.sqrt (pairDist2 cx3 10 0 1) ^ 6 - 1)) ^ 2 := by
  have hlj : ∀ l : Fin 3, ljPair cx3 10 0 1 l
      = 24 * eps * sigma7 * ((9:ℝ) ^ (-3:ℤ) / 3) * (2 * sigma6 * (9:ℝ) ^ (-3:ℤ) - 1)
          * (pairDx cx3 10 0 1 l / 3) := by
    intro l
    rw [ljPair, cx3_dist2, sqrt_nine]
  rw [Fin.sum_univ_three, hlj 0, hlj 1, hlj 2, cx3_dx0, cx3_dx1, cx3_dx2, cx3_sqrt]
  simp only [eps, sigma7, sigma6, sigma, one_pow, one_mul, mul_one]
  norm_num

theorem ljPair_formula_witness :
    0 < pairDist2 cx3 10 0 1
      ∧ (ljPair cx3 10 0 1 0
          = 24 * eps * sigma ^ 6 / Real.sqrt (pairDist2 cx3 10 0 1) ^ 7
              * (2 * sigma ^ 6 / Real.sqrt (pairDist2 cx3 10 0 1) ^ 6 - 1)
              * (pairDx cx3 10 0 1 0 / Real.sqrt (pairDist2 cx3 10 0 1))
          ∧ ∑ l2, ljPair cx3 10 0 1 l2 ^ 2
            = (24 * eps * sigma ^ 6 / Real.sqrt (pairDist2 cx3 10 0 1) ^ 7
                * (2 * sigma ^ 6 / Real.sqrt (pairDist2 cx3 10 0 1) ^ 6 - 1)) ^ 2) :=
  ⟨by rw [cx3_dist2]; norm_num, ljPair_formula cx3 10 0 1 0 (by rw [cx3_dist2]; norm_num)⟩

theorem cx8_dx1 : pairDx cx8 3 0 1 1 = -(3/2) := by
  rw [pairDx]
  simp [cx8]
  rw [minImage_near]
  · rw [copysign]
    norm_num
  · rw [abs_lt]
    norm_num

theorem cx8_dx2 : pairDx cx8 3 0 1 2 = -(3/2) := by
  rw [pairDx]
  simp [cx8]
  rw [minImage_near]
  · rw [copysign]
    norm_num
  · rw [abs_lt]
    norm_num

theorem cx8_dist2_lb : 9/2 ≤ pairDist2 cx8 3 0 1 := by
  rw [pairDist2, Fin.sum_univ_three, cx8_dx1, cx8_dx2]
  have h0 := mul_self_nonneg (pairDx cx8 3 0 1 0)
  linarith

theorem lj_minimum_force_nonzero :
    compute_forces cx8 3 0 1 ≠ 0 := by
  have hps : pairSet 2 = {((0 : Fin 2), (1 : Fin 2))} := by decide
  have hred : compute_forces cx8 3 0 1 = -ljPair cx8 3 0 1 1 := by
    rw [compute_forces, lj_force, hps, Finset.sum_singleton]
    norm_num
  rw [hred, neg_ne_zero]
  have hd2 : 0 < pairDist2 cx8 3 0 1 := lt_of_lt_of_le (by norm_num) cx8_dist2_lb
  have hs : 0 < Real.sqrt (pairDist2 cx8 3 0 1) := Real.sqrt_pos.mpr hd2
  have hcube : 2 < pairDist2 cx8 3 0 1 ^ 3 := by
    have h1 : ((9:ℝ)/2)^3 ≤ pairDist2 cx8 3 0 1 ^ 3 :=
      pow_le_pow_left₀ (by norm_num) cx8_dist2_lb 3
    norm_num at h1
    linarith
  have hpos3 : 0 < pairDist2 cx8 3 0 1 ^ 3 := by positivity
  have hXpos : 0 < 24 * eps * sigma7
      * (pairDist2 cx8 3 0 1 ^ (-3:ℤ) / Real.sqrt (pairDist2 cx8 3 0 1)) := by
    rw [eps, sigma7, sigma6, sigma, zpow_negThree]
    positivity
  have hYneg : 2 * sigma6 * pairDist2 cx8 3 0 1 ^ (-3:ℤ) - 1 < 0 := by
    rw [sigma6, sigma, zpow_negThree]
    have hinv : (pairDist2 cx8 3 0 1 ^ 3)⁻¹ < 1/2 := by
      rw [inv_eq_one_div, div_lt_div_iff₀ hpos3 (by norm_num)]
      linarith
    norm_num
    linarith
  have hZneg : pairDx cx8 3 0 1 1 / Real.sqrt (pairDist2 cx8 3 0 1) < 0 := by
    rw [cx8_dx1]
    exact div_neg_of_neg_of_pos (by norm_num) hs
  have : 0 < 24 * eps * sigma7
      * (pairDist2 cx8 3 0 1 ^ (-3:ℤ) / Real.sqrt (pairDist2 cx8 3 0 1))
      * (2 * sigma6 * pairDist2 cx8 3 0 1 ^ (-3:ℤ) - 1)
      * (pairDx cx8 3 0 1 1 / Real.sqrt (pairDist2 cx8 3 0 1)) :=
    mul_pos_of_neg_of_neg (mul_neg_of_pos_of_neg hXpos hYneg) hZneg
  rw [ljPair]
  exact ne_of_gt this

end MDCode
